import Mathlib

/-!
Shallow embedding of neon/transforms/cost.py (neon 1.1.2): the cost
functions CrossEntropyBinary, CrossEntropyMulti, SumSquared and
MeanSquared, and the evaluation metrics Metric, TopKMisclassification,
Misclassification and Accuracy.

A tensor of shape (m, n) is embedded as a function Fin m → Fin n → ℝ for
the differentiable costs (they use the backend logarithm) and as
Fin m → Fin n → ℚ for the metrics, whose arithmetic is exact.  Axis 0
indexes rows (output units), axis 1 indexes the batch (examples), as in
the source, where iobuf rows are reshaped against be.bsz columns.
-/

namespace NeonCost

/-- Modelled from the spec: the backend primitive safelog, described in the
glossary as a logarithm variant that avoids negative-infinity/NaN outputs
for zero or near-zero inputs via clamping.  The backend is outside this
module; the clamping threshold is taken to be exp (-50), and any positive
threshold below 3/10 gives the same values on every input appearing in the
theorems below. -/
noncomputable def safelog (x : ℝ) : ℝ :=
  Real.log (max x (Real.exp (-50)))

/-- The clamping threshold of safelog lies strictly below 3/10. -/
lemma safelog_eps_lt : Real.exp (-50) < 3 / 10 := by
  have h1 : (2 : ℝ) ≤ Real.exp 1 := by
    have := Real.add_one_le_exp (1 : ℝ)
    linarith
  have h2 : Real.exp (2 : ℝ) = Real.exp 1 * Real.exp 1 := by
    rw [← Real.exp_add]; norm_num
  have h4 : (4 : ℝ) ≤ Real.exp 2 := by nlinarith
  have h5 : Real.exp (-50 : ℝ) ≤ Real.exp (-2 : ℝ) :=
    Real.exp_le_exp.mpr (by norm_num)
  have h6 : Real.exp (-2 : ℝ) * Real.exp (2 : ℝ) = 1 := by
    rw [← Real.exp_add]; norm_num
  nlinarith [Real.exp_pos (-2 : ℝ), Real.exp_pos (-50 : ℝ)]

/-- Above the clamping threshold, safelog agrees with the logarithm. -/
lemma safelog_eq_log {x : ℝ} (hx : 3 / 10 ≤ x) : safelog x = Real.log x := by
  unfold safelog
  rw [max_eq_left (le_trans safelog_eps_lt.le hx)]

/-- safelog is nonpositive on inputs at most 1. -/
lemma safelog_nonpos {x : ℝ} (hx : x ≤ 1) : safelog x ≤ 0 := by
  unfold safelog
  refine Real.log_nonpos ?_ ?_
  · exact le_trans (Real.exp_pos _).le (le_max_right _ _)
  · exact max_le hx (le_trans safelog_eps_lt.le (by norm_num))

/-- CrossEntropyBinary: the instance state is the single field scale,
stored by init (source line 96). -/
structure CrossEntropyBinary where
  scale : ℝ

/-- A CrossEntropyBinary built with the default argument scale = 1. -/
def CrossEntropyBinary.default : CrossEntropyBinary :=
  ⟨1⟩

/-- CrossEntropyBinary.call, source lines 109-111:
a = -safelog(y) * t, b = -safelog(1-y) * (1-t), result sum(a + b, axis=0). -/
noncomputable def CrossEntropyBinary.call {m n : ℕ} (_c : CrossEntropyBinary)
    (y t : Fin m → Fin n → ℝ) : Fin n → ℝ :=
  fun j => ∑ i, (-safelog (y i j) * t i j + -safelog (1 - y i j) * (1 - t i j))

/-- CrossEntropyBinary.bprop, source line 125: scale * (y - t). -/
def CrossEntropyBinary.bprop {m n : ℕ} (c : CrossEntropyBinary)
    (y t : Fin m → Fin n → ℝ) : Fin m → Fin n → ℝ :=
  fun i j => c.scale * (y i j - t i j)

/-- State-passing form of CrossEntropyBinary.call: the method body performs
no assignment to the instance, so the resulting object is the receiver. -/
noncomputable def CrossEntropyBinary.callS {m n : ℕ} (c : CrossEntropyBinary)
    (y t : Fin m → Fin n → ℝ) : (Fin n → ℝ) × CrossEntropyBinary :=
  (c.call y t, c)

/-- State-passing form of CrossEntropyBinary.bprop. -/
def CrossEntropyBinary.bpropS {m n : ℕ} (c : CrossEntropyBinary)
    (y t : Fin m → Fin n → ℝ) : (Fin m → Fin n → ℝ) × CrossEntropyBinary :=
  (c.bprop y t, c)

/-- CrossEntropyMulti: instance state is scale and logscale (source lines
145-146). -/
structure CrossEntropyMulti where
  scale : ℝ
  logscale : ℝ

/-- CrossEntropyMulti.init: stores scale, and logscale = 1/ln 2 when
usebits is requested, else 1 (source line 146). -/
noncomputable def CrossEntropyMulti.init (scale : ℝ) (usebits : Bool) :
    CrossEntropyMulti :=
  ⟨scale, if usebits then 1 / Real.log 2 else 1⟩

/-- CrossEntropyMulti.call, source line 159:
sum(-t * logscale * safelog(y), axis=0). -/
noncomputable def CrossEntropyMulti.call {m n : ℕ} (c : CrossEntropyMulti)
    (y t : Fin m → Fin n → ℝ) : Fin n → ℝ :=
  fun j => ∑ i, -t i j * c.logscale * safelog (y i j)

/-- CrossEntropyMulti.bprop, source line 174: scale * (y - t). -/
def CrossEntropyMulti.bprop {m n : ℕ} (c : CrossEntropyMulti)
    (y t : Fin m → Fin n → ℝ) : Fin m → Fin n → ℝ :=
  fun i j => c.scale * (y i j - t i j)

/-- State-passing form of CrossEntropyMulti.call. -/
noncomputable def CrossEntropyMulti.callS {m n : ℕ} (c : CrossEntropyMulti)
    (y t : Fin m → Fin n → ℝ) : (Fin n → ℝ) × CrossEntropyMulti :=
  (c.call y t, c)

/-- State-passing form of CrossEntropyMulti.bprop. -/
def CrossEntropyMulti.bpropS {m n : ℕ} (c : CrossEntropyMulti)
    (y t : Fin m → Fin n → ℝ) : (Fin m → Fin n → ℝ) × CrossEntropyMulti :=
  (c.bprop y t, c)

/-- SumSquared: init installs the func and funcgrad closures, to which the
base class Cost.call and Cost.bprop delegate (source lines 25-49 and
183-189).  The instance state is exactly this pair of closures. -/
structure SumSquared (m n : ℕ) where
  func : (Fin m → Fin n → ℝ) → (Fin m → Fin n → ℝ) → (Fin n → ℝ)
  funcgrad : (Fin m → Fin n → ℝ) → (Fin m → Fin n → ℝ) → (Fin m → Fin n → ℝ)

/-- SumSquared.init, source lines 187-189:
func y t = sum(square(y - t), axis=0) / 2, funcgrad y t = y - t. -/
noncomputable def SumSquared.init (m n : ℕ) : SumSquared m n where
  func := fun y t j => (∑ i, (y i j - t i j) ^ 2) / 2
  funcgrad := fun y t i j => y i j - t i j

/-- Cost.call for SumSquared delegates to the stored func (source line 36). -/
def SumSquared.call {m n : ℕ} (c : SumSquared m n)
    (y t : Fin m → Fin n → ℝ) : Fin n → ℝ :=
  c.func y t

/-- Cost.bprop for SumSquared delegates to the stored funcgrad (line 49). -/
def SumSquared.bprop {m n : ℕ} (c : SumSquared m n)
    (y t : Fin m → Fin n → ℝ) : Fin m → Fin n → ℝ :=
  c.funcgrad y t

/-- State-passing form of Cost.call for SumSquared. -/
def SumSquared.callS {m n : ℕ} (c : SumSquared m n)
    (y t : Fin m → Fin n → ℝ) : (Fin n → ℝ) × SumSquared m n :=
  (c.call y t, c)

/-- State-passing form of Cost.bprop for SumSquared. -/
def SumSquared.bpropS {m n : ℕ} (c : SumSquared m n)
    (y t : Fin m → Fin n → ℝ) : (Fin m → Fin n → ℝ) × SumSquared m n :=
  (c.bprop y t, c)

/-- MeanSquared: like SumSquared, the state is the func/funcgrad pair
installed by init (source lines 198-204). -/
structure MeanSquared (m n : ℕ) where
  func : (Fin m → Fin n → ℝ) → (Fin m → Fin n → ℝ) → (Fin n → ℝ)
  funcgrad : (Fin m → Fin n → ℝ) → (Fin m → Fin n → ℝ) → (Fin m → Fin n → ℝ)

/-- MeanSquared.init, source lines 202-204:
func y t = mean(square(y - t), axis=0) / 2, where the backend mean along
axis 0 is the row sum divided by the number m of rows, and
funcgrad y t = (y - t) / y.shape[0], where y.shape[0] = m. -/
noncomputable def MeanSquared.init (m n : ℕ) : MeanSquared m n where
  func := fun y t j => ((∑ i, (y i j - t i j) ^ 2) / (m : ℝ)) / 2
  funcgrad := fun y t i j => (y i j - t i j) / (m : ℝ)

/-- Cost.call for MeanSquared delegates to the stored func. -/
def MeanSquared.call {m n : ℕ} (c : MeanSquared m n)
    (y t : Fin m → Fin n → ℝ) : Fin n → ℝ :=
  c.func y t

/-- Cost.bprop for MeanSquared delegates to the stored funcgrad. -/
def MeanSquared.bprop {m n : ℕ} (c : MeanSquared m n)
    (y t : Fin m → Fin n → ℝ) : Fin m → Fin n → ℝ :=
  c.funcgrad y t

/-- State-passing form of Cost.call for MeanSquared. -/
def MeanSquared.callS {m n : ℕ} (c : MeanSquared m n)
    (y t : Fin m → Fin n → ℝ) : (Fin n → ℝ) × MeanSquared m n :=
  (c.call y t, c)

/-- State-passing form of Cost.bprop for MeanSquared. -/
def MeanSquared.bpropS {m n : ℕ} (c : MeanSquared m n)
    (y t : Fin m → Fin n → ℝ) : (Fin m → Fin n → ℝ) × MeanSquared m n :=
  (c.bprop y t, c)

/-- The Python exception raised by the abstract Metric.call. -/
inductive PyExc where
  | notImplementedError

/-- Metric.call, source lines 60-71: the base class raises
NotImplementedError unconditionally. -/
def Metric.call {m n : ℕ} (_y _t : Fin m → Fin n → ℚ) : Except PyExc ℚ :=
  Except.error PyExc.notImplementedError

/-- Metric.bprop, source lines 73-77: the body is pass, which returns None
and performs no assignment; embedded as state-passing over an arbitrary
instance state. -/
def Metric.bprop {σ : Type} {m n : ℕ} (s : σ)
    (_y _t : Fin m → Fin n → ℚ) : σ × Option ℚ :=
  (s, none)

/-- Numeric value of a backend boolean tensor entry: comparisons evaluate
to 1 or 0 when used in arithmetic. -/
def boolInd (p : Prop) [Decidable p] : ℚ :=
  if p then 1 else 0

/-- Mean of a 1 x (n+1) row, as produced by Tensor.get().mean() on the
per-record outputs buffer. -/
def meanRow {n : ℕ} (r : Fin (n + 1) → ℚ) : ℚ :=
  (∑ j, r j) / (n + 1)

/-- Backend max along axis 0 at column j: be.max(y, axis=0). -/
def maxCol {m n : ℕ} (y : Fin (m + 1) → Fin (n + 1) → ℚ)
    (j : Fin (n + 1)) : ℚ :=
  Finset.univ.sup' Finset.univ_nonempty (fun i => y i j)

/-- The set of indices of maximal entries of column j is nonempty. -/
lemma maxIdx_filter_nonempty {m n : ℕ} (y : Fin (m + 1) → Fin (n + 1) → ℚ)
    (j : Fin (n + 1)) :
    (Finset.univ.filter (fun i => ∀ k, y k j ≤ y i j)).Nonempty := by
  obtain ⟨b, _, hb⟩ :=
    Finset.exists_max_image Finset.univ (fun i => y i j)
      ⟨0, Finset.mem_univ 0⟩
  exact ⟨b, Finset.mem_filter.mpr
    ⟨Finset.mem_univ b, fun k => hb k (Finset.mem_univ k)⟩⟩

/-- Backend argmax along axis 0 at column j: numpy argmax returns the first
index attaining the maximum of the column. -/
def argmaxCol {m n : ℕ} (y : Fin (m + 1) → Fin (n + 1) → ℚ)
    (j : Fin (n + 1)) : Fin (m + 1) :=
  (Finset.univ.filter (fun i => ∀ k, y k j ≤ y i j)).min'
    (maxIdx_filter_nonempty y j)

/-- Per-example output row of Misclassification.call, source lines 267-269:
not_equal of the argmax-decoded prediction and target columns. -/
def Misclassification.indicator {m n : ℕ}
    (y t : Fin (m + 1) → Fin (n + 1) → ℚ) (j : Fin (n + 1)) : ℚ :=
  boolInd (argmaxCol y j ≠ argmaxCol t j)

/-- Misclassification.call returns the mean of the indicator row over the
batch (source line 271). -/
def Misclassification.call {m n : ℕ}
    (y t : Fin (m + 1) → Fin (n + 1) → ℚ) : ℚ :=
  meanRow (Misclassification.indicator y t)

/-- Per-example output row of Accuracy.call, source lines 298-300: equal of
the argmax-decoded prediction and target columns. -/
def Accuracy.indicator {m n : ℕ}
    (y t : Fin (m + 1) → Fin (n + 1) → ℚ) (j : Fin (n + 1)) : ℚ :=
  boolInd (argmaxCol y j = argmaxCol t j)

/-- Accuracy.call returns the mean of the indicator row over the batch
(source line 302). -/
def Accuracy.call {m n : ℕ}
    (y t : Fin (m + 1) → Fin (n + 1) → ℚ) : ℚ :=
  meanRow (Accuracy.indicator y t)

namespace TopKMisclassification

/-- correctProbs row, source line 233: sum(y * t, axis=0). -/
def correctProbs {m n : ℕ} (y t : Fin (m + 1) → Fin (n + 1) → ℚ)
    (j : Fin (n + 1)) : ℚ :=
  ∑ i, y i j * t i j

/-- nSlots, source line 234: k - sum(y > correctProbs, axis=0). -/
def nSlots {m n : ℕ} (k : ℕ) (y t : Fin (m + 1) → Fin (n + 1) → ℚ)
    (j : Fin (n + 1)) : ℚ :=
  (k : ℚ) -
    ((Finset.univ.filter (fun i => correctProbs y t j < y i j)).card : ℚ)

/-- nEq, source line 235: sum(y == correctProbs, axis=0). -/
def nEq {m n : ℕ} (y t : Fin (m + 1) → Fin (n + 1) → ℚ)
    (j : Fin (n + 1)) : ℚ :=
  ((Finset.univ.filter (fun i => y i j = correctProbs y t j)).card : ℚ)

/-- Per-example top-k misclassification row, source line 236:
1 - (nSlots > 0) * ((nEq <= nSlots) * (1 - nSlots/nEq) + nSlots/nEq). -/
def topkRow {m n : ℕ} (k : ℕ) (y t : Fin (m + 1) → Fin (n + 1) → ℚ)
    (j : Fin (n + 1)) : ℚ :=
  1 - boolInd (0 < nSlots k y t j) *
      (boolInd (nEq y t j ≤ nSlots k y t j) *
          (1 - nSlots k y t j / nEq y t j) +
        nSlots k y t j / nEq y t j)

/-- Per-example top-1 misclassification row, source line 237:
1 - (max(y, axis=0) == correctProbs) / nEq. -/
def top1Row {m n : ℕ} (y t : Fin (m + 1) → Fin (n + 1) → ℚ)
    (j : Fin (n + 1)) : ℚ :=
  1 - boolInd (maxCol y j = correctProbs y t j) / nEq y t j

end TopKMisclassification

/-- Column j of t is a one-hot encoding of class c: entry c is 1 and every
other entry is 0. -/
def oneHotCol {m n : ℕ} (t : Fin (m + 1) → Fin (n + 1) → ℚ)
    (j : Fin (n + 1)) (c : Fin (m + 1)) : Prop :=
  t c j = 1 ∧ ∀ i, i ≠ c → t i j = 0

instance {m n : ℕ} (t : Fin (m + 1) → Fin (n + 1) → ℚ)
    (j : Fin (n + 1)) (c : Fin (m + 1)) : Decidable (oneHotCol t j c) :=
  inferInstanceAs (Decidable (_ ∧ _))

/-- Claim C8: for every input pair (y, t), the base class Metric.call
signals NotImplementedError to the caller, and Metric.bprop is a no-op
that returns no value and changes no state. -/
theorem metric_base_call_raises_and_bprop_noop {σ : Type} {m n : ℕ}
    (s : σ) (y t : Fin m → Fin n → ℚ) :
    Metric.call y t = Except.error PyExc.notImplementedError ∧
      Metric.bprop s y t = (s, none) :=
  ⟨rfl, rfl⟩

/-- Claim C9: for every cost object of the four classes and every input
pair, call and bprop leave every instance field unchanged (the object
coming out of the state-passing form is the receiver), and hence a second
call on the resulting object with the same inputs returns the same
result. -/
theorem cost_calls_preserve_instance_state {m n : ℕ}
    (c1 : CrossEntropyBinary) (c2 : CrossEntropyMulti)
    (c3 : SumSquared m n) (c4 : MeanSquared m n)
    (y t : Fin m → Fin n → ℝ) :
    ((c1.callS y t).2 = c1 ∧ (c1.bpropS y t).2 = c1 ∧
        ((c1.callS y t).2.callS y t).1 = (c1.callS y t).1 ∧
        ((c1.bpropS y t).2.bpropS y t).1 = (c1.bpropS y t).1) ∧
      ((c2.callS y t).2 = c2 ∧ (c2.bpropS y t).2 = c2 ∧
        ((c2.callS y t).2.callS y t).1 = (c2.callS y t).1 ∧
        ((c2.bpropS y t).2.bpropS y t).1 = (c2.bpropS y t).1) ∧
      ((c3.callS y t).2 = c3 ∧ (c3.bpropS y t).2 = c3 ∧
        ((c3.callS y t).2.callS y t).1 = (c3.callS y t).1 ∧
        ((c3.bpropS y t).2.bpropS y t).1 = (c3.bpropS y t).1) ∧
      ((c4.callS y t).2 = c4 ∧ (c4.bpropS y t).2 = c4 ∧
        ((c4.callS y t).2.callS y t).1 = (c4.callS y t).1 ∧
        ((c4.bpropS y t).2.bpropS y t).1 = (c4.bpropS y t).1) :=
  ⟨⟨rfl, rfl, rfl, rfl⟩, ⟨rfl, rfl, rfl, rfl⟩,
    ⟨rfl, rfl, rfl, rfl⟩, ⟨rfl, rfl, rfl, rfl⟩⟩

/-- Prediction used in the MeanSquared counterexample: two output rows,
one example in the batch. -/
def msY : Fin 2 → Fin 1 → ℝ := ![![1], ![0]]

/-- Target used in the MeanSquared counterexample. -/
def msT : Fin 2 → Fin 1 → ℝ := ![![0], ![0]]

/-- Claim C2 counterexample: at y = [[1],[0]], t = [[0],[0]] (two rows, a
batch of one example), MeanSquared.call equals 1/4, namely
sum(square(y-t),axis=0)/2 divided by the row count 2, whereas division by
the batch size 1 would give 1/2; likewise bprop equals (y-t)/2 = 1/2 at
entry (0,0), not (y-t)/1 = 1. -/
theorem meanSquared_batch_size_counterexample :
    (MeanSquared.init 2 1).call msY msT 0 = 1 / 4 ∧
      (MeanSquared.init 2 1).call msY msT 0 ≠
        ((∑ a, (msY a 0 - msT a 0) ^ 2) / 2) / 1 ∧
      (MeanSquared.init 2 1).bprop msY msT 0 0 = 1 / 2 ∧
      (MeanSquared.init 2 1).bprop msY msT 0 0 ≠ (msY 0 0 - msT 0 0) / 1 := by
  have hsum : (∑ a, (msY a 0 - msT a 0) ^ 2) = (1 : ℝ) := by
    rw [Fin.sum_univ_two]
    simp [msY, msT]
  refine ⟨?_, ?_, ?_, ?_⟩
  · show ((∑ a, (msY a 0 - msT a 0) ^ 2) / ((2 : ℕ) : ℝ)) / 2 = 1 / 4
    rw [hsum]; norm_num
  · show ((∑ a, (msY a 0 - msT a 0) ^ 2) / ((2 : ℕ) : ℝ)) / 2 ≠ _
    rw [hsum]; norm_num
  · show (msY 0 0 - msT 0 0) / ((2 : ℕ) : ℝ) = 1 / 2
    simp [msY, msT]
  · show (msY 0 0 - msT 0 0) / ((2 : ℕ) : ℝ) ≠ (msY 0 0 - msT 0 0) / 1
    norm_num [msY, msT]

/-- Claim C2 amended: for every y and t of matching shape,
MeanSquared.call returns sum(square(y-t), axis=0)/2 additionally divided
by the number of rows of y (y.shape[0], the output dimension, not the
batch size), and MeanSquared.bprop returns (y-t)/y.shape[0]. -/
theorem meanSquared_divides_by_row_count {m n : ℕ}
    (y t : Fin (m + 1) → Fin (n + 1) → ℝ) (i : Fin (m + 1)) (j : Fin (n + 1)) :
    (MeanSquared.init (m + 1) (n + 1)).call y t j =
        ((∑ a, (y a j - t a j) ^ 2) / 2) / ((m : ℝ) + 1) ∧
      (MeanSquared.init (m + 1) (n + 1)).bprop y t i j =
        (y i j - t i j) / ((m : ℝ) + 1) := by
  constructor
  · show ((∑ a, (y a j - t a j) ^ 2) / ((m + 1 : ℕ) : ℝ)) / 2 = _
    push_cast
    ring
  · show (y i j - t i j) / ((m + 1 : ℕ) : ℝ) = _
    push_cast
    ring

/-- Claim C7: SumSquared.call computes sum(square(y-t), axis=0)/2, its
bprop computes y - t, and the bprop entry at (i, j) is the analytic
derivative of the j-th loss component with respect to the (i, j) entry of
the prediction. -/
theorem sumSquared_loss_and_analytic_gradient {m n : ℕ}
    (y t : Fin m → Fin n → ℝ) (i : Fin m) (j : Fin n) :
    (SumSquared.init m n).call y t j = (∑ a, (y a j - t a j) ^ 2) / 2 ∧
      (SumSquared.init m n).bprop y t i j = y i j - t i j ∧
      HasDerivAt
        (fun z => (SumSquared.init m n).call
          (fun a b => if a = i ∧ b = j then z else y a b) t j)
        ((SumSquared.init m n).bprop y t i j) (y i j) := by
  refine ⟨rfl, rfl, ?_⟩
  have hkey : ∀ a : Fin m,
      HasDerivAt (fun z : ℝ => ((if a = i then z else y a j) - t a j) ^ 2 / 2)
        (if a = i then y i j - t i j else 0) (y i j) := by
    intro a
    by_cases ha : a = i
    · subst ha
      have h1 : HasDerivAt (fun z : ℝ => z - t a j) 1 (y a j) :=
        (hasDerivAt_id _).sub_const _
      have h2 := (h1.pow 2).div_const 2
      have h3 : HasDerivAt (fun z : ℝ => (z - t a j) ^ 2 / 2)
          (y a j - t a j) (y a j) := by
        convert h2 using 1
        push_cast
        ring
      simpa using h3
    · simp only [if_neg ha]
      exact hasDerivAt_const _ _
  have hsum := HasDerivAt.sum (fun a (_ : a ∈ Finset.univ) => hkey a)
  have hval : (∑ a, if a = i then y i j - t i j else 0) = y i j - t i j := by
    simp
  rw [hval] at hsum
  have hfe : (fun z : ℝ => (SumSquared.init m n).call
      (fun a b => if a = i ∧ b = j then z else y a b) t j)
      = fun z : ℝ => ∑ a, ((if a = i then z else y a j) - t a j) ^ 2 / 2 := by
    funext z
    show (∑ a, ((if a = i ∧ j = j then z else y a j) - t a j) ^ 2) / 2 = _
    rw [Finset.sum_div]
    simp only [eq_self_iff_true, and_true]
  rw [hfe]
  exact hsum

/-- Prediction of the worked example of claim C1: y = [[0.7],[0.3]]. -/
noncomputable def exY : Fin 2 → Fin 1 → ℝ := ![![7 / 10], ![3 / 10]]

/-- Target of the worked example of claim C1: t = [[1],[0]]. -/
def exT : Fin 2 → Fin 1 → ℝ := ![![1], ![0]]

/-- On the worked example, CrossEntropyBinary.call sums the per-row binary
cross entropies of both rows and returns -2 ln(0.7). -/
lemma ceb_example_call :
    CrossEntropyBinary.default.call exY exT 0 = -(2 * Real.log (7 / 10)) := by
  show (∑ a : Fin 2, (-safelog (exY a 0) * exT a 0 +
      -safelog (1 - exY a 0) * (1 - exT a 0))) = _
  rw [Fin.sum_univ_two]
  simp only [exY, exT, Matrix.cons_val_zero, Matrix.cons_val_one,
    Matrix.head_cons]
  rw [show (1 : ℝ) - 3 / 10 = 7 / 10 by norm_num,
    safelog_eq_log (le_refl (3 / 10 : ℝ)),
    safelog_eq_log (by norm_num : (3 : ℝ) / 10 ≤ 7 / 10)]
  ring

/-- Claim C1 counterexample: on the worked example the loss returned by
CrossEntropyBinary.call is not -ln(0.7); it is -2 ln(0.7), because the sum
over axis 0 also picks up the second row's term -ln(1 - 0.3). -/
theorem crossEntropyBinary_example_counterexample :
    CrossEntropyBinary.default.call exY exT 0 ≠ -Real.log (7 / 10) := by
  rw [ceb_example_call]
  intro h
  have hlog : Real.log ((7 : ℝ) / 10) = 0 := by linarith
  rw [Real.log_eq_zero] at hlog
  norm_num at hlog

/-- Claim C1 amended: for y = [[0.7],[0.3]] and t = [[1],[0]], the loss
returned by CrossEntropyBinary.call (default scale 1) is
-ln(0.7) - ln(1 - 0.3) = -2 ln(0.7), and bprop returns the gradient
y - t, whose entry for the first row is 0.7 - 1 = -0.3 (and 0.3 for the
second row). -/
theorem crossEntropyBinary_example_amended :
    CrossEntropyBinary.default.call exY exT 0 = -(2 * Real.log (7 / 10)) ∧
      CrossEntropyBinary.default.bprop exY exT 0 0 = -(3 / 10) ∧
      CrossEntropyBinary.default.bprop exY exT 1 0 = 3 / 10 := by
  refine ⟨ceb_example_call, ?_, ?_⟩ <;>
    norm_num [CrossEntropyBinary.bprop, CrossEntropyBinary.default, exY, exT]

/-- Claim C6: for inputs whose entries all lie in (0, 1], every component
of the loss returned by CrossEntropyBinary.call, and by the call of any
CrossEntropyMulti built by init, is non-negative. -/
theorem crossEntropy_loss_nonneg {m n : ℕ} (c : CrossEntropyBinary)
    (s : ℝ) (usebits : Bool) (y t : Fin m → Fin n → ℝ)
    (hy : ∀ i j, 0 < y i j ∧ y i j ≤ 1)
    (ht : ∀ i j, 0 < t i j ∧ t i j ≤ 1) (j : Fin n) :
    0 ≤ c.call y t j ∧
      0 ≤ (CrossEntropyMulti.init s usebits).call y t j := by
  constructor
  · refine Finset.sum_nonneg fun a _ => ?_
    have hy2 := (hy a j).2
    have ht1 := (ht a j).1
    have ht2 := (ht a j).2
    have l1 : safelog (y a j) ≤ 0 := safelog_nonpos hy2
    have l2 : safelog (1 - y a j) ≤ 0 := safelog_nonpos (by linarith [(hy a j).1])
    have term1 : 0 ≤ -safelog (y a j) * t a j :=
      mul_nonneg (by linarith) ht1.le
    have term2 : 0 ≤ -safelog (1 - y a j) * (1 - t a j) :=
      mul_nonneg (by linarith) (by linarith)
    linarith
  · refine Finset.sum_nonneg fun a _ => ?_
    have hls : 0 ≤ (CrossEntropyMulti.init s usebits).logscale := by
      show 0 ≤ if usebits then 1 / Real.log 2 else 1
      by_cases hb : usebits
      · rw [if_pos hb]
        have := Real.log_pos (by norm_num : (1 : ℝ) < 2)
        positivity
      · rw [if_neg hb]
        norm_num
    have l1 : safelog (y a j) ≤ 0 := safelog_nonpos (hy a j).2
    have hrw : -t a j * (CrossEntropyMulti.init s usebits).logscale *
        safelog (y a j) =
        (t a j * (CrossEntropyMulti.init s usebits).logscale) *
          (-safelog (y a j)) := by
      ring
    rw [hrw]
    exact mul_nonneg (mul_nonneg (ht a j).1.le hls) (by linarith)

/-- Concrete input of the witness for claim C6: the single entry 1/2. -/
noncomputable def ceW : Fin 1 → Fin 1 → ℝ := ![![1 / 2]]

/-- Witness for claim C6 at y = t = [[1/2]]. -/
theorem crossEntropy_loss_nonneg_witness :
    (∀ i j : Fin 1, 0 < ceW i j ∧ ceW i j ≤ 1) ∧
      0 ≤ CrossEntropyBinary.default.call ceW ceW 0 ∧
      0 ≤ (CrossEntropyMulti.init 1 false).call ceW ceW 0 := by
  have hin : ∀ i j : Fin 1, 0 < ceW i j ∧ ceW i j ≤ 1 := by
    intro i j
    fin_cases i
    fin_cases j
    norm_num [ceW]
  exact ⟨hin,
    (crossEntropy_loss_nonneg CrossEntropyBinary.default 1 false
      ceW ceW hin hin 0).1,
    (crossEntropy_loss_nonneg CrossEntropyBinary.default 1 false
      ceW ceW hin hin 0).2⟩

/-- boolInd of a true comparison is 1. -/
lemma boolInd_pos {p : Prop} [Decidable p] (h : p) : boolInd p = 1 := by
  unfold boolInd
  exact if_pos h

/-- boolInd of a false comparison is 0. -/
lemma boolInd_neg {p : Prop} [Decidable p] (h : ¬p) : boolInd p = 0 := by
  unfold boolInd
  exact if_neg h

/-- A comparison and its negation have indicator values summing to 1. -/
lemma boolInd_add_boolInd_not {p : Prop} [Decidable p] :
    boolInd p + boolInd (¬p) = 1 := by
  by_cases h : p
  · rw [boolInd_pos h, boolInd_neg (not_not_intro h)]
    norm_num
  · rw [boolInd_neg h, boolInd_pos h]
    norm_num

/-- Claim C3: for every one-hot-encoded prediction/target pair of matching
shape, the value of Accuracy.call plus the value of Misclassification.call
equals 1. -/
theorem accuracy_add_misclassification_eq_one {m n : ℕ}
    (y t : Fin (m + 1) → Fin (n + 1) → ℚ)
    (_hy : ∀ j, ∃ c, oneHotCol y j c) (_ht : ∀ j, ∃ c, oneHotCol t j c) :
    Accuracy.call y t + Misclassification.call y t = 1 := by
  unfold Accuracy.call Misclassification.call meanRow
  rw [div_add_div_same, ← Finset.sum_add_distrib]
  have hone : ∀ j, Accuracy.indicator y t j +
      Misclassification.indicator y t j = 1 := by
    intro j
    unfold Accuracy.indicator Misclassification.indicator
    exact boolInd_add_boolInd_not
  rw [Finset.sum_congr rfl (fun j _ => hone j), Finset.sum_const,
    Finset.card_univ, Fintype.card_fin, nsmul_eq_mul, mul_one]
  have hnz : ((n : ℚ) + 1) ≠ 0 := by positivity
  push_cast
  field_simp

/-- Witness for claim C3 at the one-hot pair y = t = [[1]]. -/
theorem accuracy_add_misclassification_witness :
    (∀ j, ∃ c, oneHotCol (![![(1 : ℚ)]]) j c) ∧
      Accuracy.call ![![(1 : ℚ)]] ![![(1 : ℚ)]] +
        Misclassification.call ![![(1 : ℚ)]] ![![(1 : ℚ)]] = 1 :=
  ⟨by decide,
    accuracy_add_misclassification_eq_one ![![(1 : ℚ)]] ![![(1 : ℚ)]]
      (by decide) (by decide)⟩

/-- With a one-hot target column for class c, the correctProbs entry of a
column is the prediction entry of the correct class. -/
lemma correctProbs_oneHot {m n : ℕ} {y t : Fin (m + 1) → Fin (n + 1) → ℚ}
    {j : Fin (n + 1)} {c : Fin (m + 1)} (h : oneHotCol t j c) :
    TopKMisclassification.correctProbs y t j = y c j := by
  unfold TopKMisclassification.correctProbs
  rw [Finset.sum_eq_single c]
  · rw [h.1, mul_one]
  · intro b _ hb
    rw [h.2 b hb, mul_zero]
  · intro hc
    exact absurd (Finset.mem_univ c) hc

/-- With a one-hot target column, nEq counts at least the correct class. -/
lemma one_le_nEq {m n : ℕ} {y t : Fin (m + 1) → Fin (n + 1) → ℚ}
    {j : Fin (n + 1)} {c : Fin (m + 1)} (h : oneHotCol t j c) :
    1 ≤ TopKMisclassification.nEq y t j := by
  unfold TopKMisclassification.nEq
  have hc : c ∈ Finset.univ.filter
      (fun i => y i j = TopKMisclassification.correctProbs y t j) := by
    simp [correctProbs_oneHot h]
  have hpos : 0 < (Finset.univ.filter
      (fun i => y i j = TopKMisclassification.correctProbs y t j)).card :=
    Finset.card_pos.mpr ⟨c, hc⟩
  exact_mod_cast hpos

/-- Claim C10: per example, with nSlots = k minus the number of classes
strictly above the correct class and nEq the number of classes tying the
correct class (nEq at least 1), the top-k misclassification value is 1
when nSlots is nonpositive, 0 when nEq fits into the slots, and
1 - nSlots/nEq in between, so it always lies in [0, 1]. -/
theorem topK_row_piecewise_and_bounds {m n : ℕ} (k : ℕ)
    (y t : Fin (m + 1) → Fin (n + 1) → ℚ) (j : Fin (n + 1))
    (c : Fin (m + 1)) (h : oneHotCol t j c) :
    TopKMisclassification.nSlots k y t j =
        (k : ℚ) - ((Finset.univ.filter (fun i => y c j < y i j)).card : ℚ) ∧
      TopKMisclassification.nEq y t j =
        ((Finset.univ.filter (fun i => y i j = y c j)).card : ℚ) ∧
      1 ≤ TopKMisclassification.nEq y t j ∧
      (TopKMisclassification.nSlots k y t j ≤ 0 →
        TopKMisclassification.topkRow k y t j = 1) ∧
      (0 < TopKMisclassification.nSlots k y t j →
        TopKMisclassification.nEq y t j ≤ TopKMisclassification.nSlots k y t j →
        TopKMisclassification.topkRow k y t j = 0) ∧
      (0 < TopKMisclassification.nSlots k y t j →
        TopKMisclassification.nSlots k y t j < TopKMisclassification.nEq y t j →
        TopKMisclassification.topkRow k y t j =
          1 - TopKMisclassification.nSlots k y t j /
            TopKMisclassification.nEq y t j) ∧
      0 ≤ TopKMisclassification.topkRow k y t j ∧
      TopKMisclassification.topkRow k y t j ≤ 1 := by
  have hE1 : 1 ≤ TopKMisclassification.nEq y t j := one_le_nEq h
  have hcase1 : TopKMisclassification.nSlots k y t j ≤ 0 →
      TopKMisclassification.topkRow k y t j = 1 := by
    intro hS
    unfold TopKMisclassification.topkRow
    rw [boolInd_neg (not_lt.mpr hS)]
    ring
  have hcase2 : 0 < TopKMisclassification.nSlots k y t j →
      TopKMisclassification.nEq y t j ≤ TopKMisclassification.nSlots k y t j →
      TopKMisclassification.topkRow k y t j = 0 := by
    intro hS hES
    unfold TopKMisclassification.topkRow
    rw [boolInd_pos hS, boolInd_pos hES]
    ring
  have hcase3 : 0 < TopKMisclassification.nSlots k y t j →
      TopKMisclassification.nSlots k y t j < TopKMisclassification.nEq y t j →
      TopKMisclassification.topkRow k y t j =
        1 - TopKMisclassification.nSlots k y t j /
          TopKMisclassification.nEq y t j := by
    intro hS hSE
    unfold TopKMisclassification.topkRow
    rw [boolInd_pos hS, boolInd_neg (not_le.mpr hSE)]
    ring
  refine ⟨?_, ?_, hE1, hcase1, hcase2, hcase3, ?_, ?_⟩
  · unfold TopKMisclassification.nSlots
    simp only [correctProbs_oneHot h]
  · unfold TopKMisclassification.nEq
    simp only [correctProbs_oneHot h]
  · rcases le_or_lt (TopKMisclassification.nSlots k y t j) 0 with hS | hS
    · rw [hcase1 hS]
      norm_num
    · rcases le_or_lt (TopKMisclassification.nEq y t j)
          (TopKMisclassification.nSlots k y t j) with hES | hES
      · rw [hcase2 hS hES]
      · rw [hcase3 hS hES]
        have hdiv : TopKMisclassification.nSlots k y t j /
            TopKMisclassification.nEq y t j < 1 :=
          (div_lt_one (by linarith)).mpr hES
        linarith
  · rcases le_or_lt (TopKMisclassification.nSlots k y t j) 0 with hS | hS
    · rw [hcase1 hS]
    · rcases le_or_lt (TopKMisclassification.nEq y t j)
          (TopKMisclassification.nSlots k y t j) with hES | hES
      · rw [hcase2 hS hES]
        norm_num
      · rw [hcase3 hS hES]
        have hdiv : 0 < TopKMisclassification.nSlots k y t j /
            TopKMisclassification.nEq y t j :=
          div_pos hS (by linarith)
        linarith

/-- One-hot target column used by the metric witnesses: class 0 of 2. -/
def tW : Fin 2 → Fin 1 → ℚ := ![![1], ![0]]

/-- Tie-free prediction column used by the witnesses of C5 and C10. -/
def yW : Fin 2 → Fin 1 → ℚ := ![![1], ![0]]

/-- Witness for claim C10 at k = 1, y = [[1],[0]], t = [[1],[0]]. -/
theorem topK_row_piecewise_witness :
    oneHotCol tW 0 0 ∧
      (TopKMisclassification.nSlots 1 yW tW 0 =
          (1 : ℚ) - ((Finset.univ.filter (fun i => yW 0 0 < yW i 0)).card : ℚ) ∧
        TopKMisclassification.nEq yW tW 0 =
          ((Finset.univ.filter (fun i => yW i 0 = yW 0 0)).card : ℚ) ∧
        1 ≤ TopKMisclassification.nEq yW tW 0 ∧
        (TopKMisclassification.nSlots 1 yW tW 0 ≤ 0 →
          TopKMisclassification.topkRow 1 yW tW 0 = 1) ∧
        (0 < TopKMisclassification.nSlots 1 yW tW 0 →
          TopKMisclassification.nEq yW tW 0 ≤
            TopKMisclassification.nSlots 1 yW tW 0 →
          TopKMisclassification.topkRow 1 yW tW 0 = 0) ∧
        (0 < TopKMisclassification.nSlots 1 yW tW 0 →
          TopKMisclassification.nSlots 1 yW tW 0 <
            TopKMisclassification.nEq yW tW 0 →
          TopKMisclassification.topkRow 1 yW tW 0 =
            1 - TopKMisclassification.nSlots 1 yW tW 0 /
              TopKMisclassification.nEq yW tW 0) ∧
        0 ≤ TopKMisclassification.topkRow 1 yW tW 0 ∧
        TopKMisclassification.topkRow 1 yW tW 0 ≤ 1) :=
  ⟨by decide, by
    have hres := topK_row_piecewise_and_bounds 1 yW tW 0 0 (by decide)
    simpa using hres⟩

/-- Claim C4: when exactly two entries of a prediction column attain the
column maximum and the correct class is one of them, the per-example top-1
misclassification indicator equals 0.5. -/
theorem top1_row_tie_is_half {m n : ℕ}
    (y t : Fin (m + 1) → Fin (n + 1) → ℚ) (j : Fin (n + 1))
    (c : Fin (m + 1)) (h : oneHotCol t j c)
    (htie : (Finset.univ.filter (fun i => y i j = maxCol y j)).card = 2)
    (hc : y c j = maxCol y j) :
    TopKMisclassification.top1Row y t j = 1 / 2 := by
  have hcp : TopKMisclassification.correctProbs y t j = y c j :=
    correctProbs_oneHot h
  have hE : TopKMisclassification.nEq y t j = 2 := by
    unfold TopKMisclassification.nEq
    simp only [hcp, hc, htie]
    norm_num
  unfold TopKMisclassification.top1Row
  rw [hcp, hc, hE, boolInd_pos rfl]
  norm_num

/-- Tied prediction column used by the witness of claim C4. -/
def yTie : Fin 2 → Fin 1 → ℚ := ![![1], ![1]]

/-- Witness for claim C4 at y = [[1],[1]], t = [[1],[0]]: both entries tie
for the maximum, the correct class is among them, and the top-1 indicator
is one half. -/
theorem top1_row_tie_witness :
    (oneHotCol tW 0 0 ∧
      (Finset.univ.filter (fun i => yTie i 0 = maxCol yTie 0)).card = 2 ∧
      yTie 0 0 = maxCol yTie 0) ∧
      TopKMisclassification.top1Row yTie tW 0 = 1 / 2 :=
  ⟨⟨by decide, by decide, by decide⟩,
    top1_row_tie_is_half yTie tW 0 0 (by decide) (by decide) (by decide)⟩

/-- The argmax index is a maximiser of its column. -/
lemma argmaxCol_isMax {m n : ℕ} (y : Fin (m + 1) → Fin (n + 1) → ℚ)
    (j : Fin (n + 1)) : ∀ k, y k j ≤ y (argmaxCol y j) j := by
  have hmem : argmaxCol y j ∈
      Finset.univ.filter (fun i => ∀ k, y k j ≤ y i j) :=
    Finset.min'_mem _ (maxIdx_filter_nonempty y j)
  exact (Finset.mem_filter.mp hmem).2

/-- The column maximum is attained at the argmax index. -/
lemma maxCol_eq_argmax {m n : ℕ} (y : Fin (m + 1) → Fin (n + 1) → ℚ)
    (j : Fin (n + 1)) : maxCol y j = y (argmaxCol y j) j := by
  unfold maxCol
  apply le_antisymm
  · exact Finset.sup'_le _ _ (fun i _ => argmaxCol_isMax y j i)
  · exact Finset.le_sup' (fun i => y i j) (Finset.mem_univ (argmaxCol y j))

/-- The argmax of a one-hot column is the encoded class. -/
lemma argmaxCol_oneHot {m n : ℕ} {t : Fin (m + 1) → Fin (n + 1) → ℚ}
    {j : Fin (n + 1)} {c : Fin (m + 1)} (h : oneHotCol t j c) :
    argmaxCol t j = c := by
  have hfilter : Finset.univ.filter (fun i => ∀ k, t k j ≤ t i j) = {c} := by
    ext i
    simp only [Finset.mem_filter, Finset.mem_univ, true_and,
      Finset.mem_singleton]
    constructor
    · intro hi
      by_contra hic
      have h1 := hi c
      rw [h.1, h.2 i hic] at h1
      norm_num at h1
    · rintro rfl
      intro k
      rcases eq_or_ne k i with hk | hk
      · rw [hk]
      · rw [h.2 k hk, h.1]
        norm_num
  have hmem : argmaxCol t j ∈
      Finset.univ.filter (fun i => ∀ k, t k j ≤ t i j) :=
    Finset.min'_mem _ (maxIdx_filter_nonempty t j)
  rw [hfilter] at hmem
  exact Finset.mem_singleton.mp hmem

/-- Claim C5: for one-hot targets and prediction columns without tied
values, the per-example top-1 indicator of TopKMisclassification (and the
top-k row of an instance constructed with k = 1) equals the per-example
indicator of Misclassification. -/
theorem topK_top1_matches_misclassification {m n : ℕ}
    (y t : Fin (m + 1) → Fin (n + 1) → ℚ)
    (ht : ∀ j, ∃ c, oneHotCol t j c)
    (hy : ∀ j, Function.Injective (fun i => y i j)) (j : Fin (n + 1)) :
    TopKMisclassification.top1Row y t j = Misclassification.indicator y t j ∧
      TopKMisclassification.topkRow 1 y t j =
        Misclassification.indicator y t j := by
  obtain ⟨c, hc⟩ := ht j
  have hinj := hy j
  have hargT : argmaxCol t j = c := argmaxCol_oneHot hc
  have hcp : TopKMisclassification.correctProbs y t j = y c j :=
    correctProbs_oneHot hc
  have hspec := argmaxCol_isMax y j
  have hmax := maxCol_eq_argmax y j
  have hEq : TopKMisclassification.nEq y t j = 1 := by
    unfold TopKMisclassification.nEq
    have hfe : Finset.univ.filter
        (fun i => y i j = TopKMisclassification.correctProbs y t j) =
        {c} := by
      ext i
      simp only [Finset.mem_filter, Finset.mem_univ, true_and,
        Finset.mem_singleton, hcp]
      constructor
      · intro hi
        exact hinj hi
      · rintro rfl
        rfl
    rw [hfe]
    norm_num
  rcases eq_or_ne (argmaxCol y j) c with hA | hA
  · have hind : Misclassification.indicator y t j = 0 := by
      unfold Misclassification.indicator
      exact boolInd_neg (not_ne_iff.mpr (by rw [hA, hargT]))
    have htop1 : TopKMisclassification.top1Row y t j = 0 := by
      unfold TopKMisclassification.top1Row
      rw [hcp, hEq, boolInd_pos (by rw [hmax, hA])]
      norm_num
    have hS : TopKMisclassification.nSlots 1 y t j = 1 := by
      unfold TopKMisclassification.nSlots
      have hempty : Finset.univ.filter
          (fun i => TopKMisclassification.correctProbs y t j < y i j) =
          ∅ := by
        rw [Finset.filter_eq_empty_iff]
        intro i _
        rw [hcp, ← hA]
        exact not_lt.mpr (hspec i)
      rw [hempty]
      norm_num
    have htopk : TopKMisclassification.topkRow 1 y t j = 0 := by
      unfold TopKMisclassification.topkRow
      rw [hS, hEq, boolInd_pos (by norm_num : (0 : ℚ) < 1),
        boolInd_pos (le_refl (1 : ℚ))]
      norm_num
    rw [hind, htop1, htopk]
    exact ⟨rfl, rfl⟩
  · have hlt : y c j < y (argmaxCol y j) j := by
      rcases lt_or_eq_of_le (hspec c) with hlt | heq
      · exact hlt
      · exact absurd (hinj heq).symm hA
    have hind : Misclassification.indicator y t j = 1 := by
      unfold Misclassification.indicator
      exact boolInd_pos (by rw [hargT]; exact hA)
    have htop1 : TopKMisclassification.top1Row y t j = 1 := by
      unfold TopKMisclassification.top1Row
      rw [hcp, hEq, boolInd_neg (by rw [hmax]; exact ne_of_gt hlt)]
      norm_num
    have hS0 : TopKMisclassification.nSlots 1 y t j ≤ 0 := by
      unfold TopKMisclassification.nSlots
      have hmem : argmaxCol y j ∈ Finset.univ.filter
          (fun i => TopKMisclassification.correctProbs y t j < y i j) := by
        simp only [Finset.mem_filter, Finset.mem_univ, true_and, hcp]
        exact hlt
      have hcard : 1 ≤ (Finset.univ.filter
          (fun i => TopKMisclassification.correctProbs y t j < y i j)).card :=
        Finset.card_pos.mpr ⟨_, hmem⟩
      have hq : (1 : ℚ) ≤ ((Finset.univ.filter
          (fun i => TopKMisclassification.correctProbs y t j <
            y i j)).card : ℚ) := by
        exact_mod_cast hcard
      push_cast
      linarith
    have htopk : TopKMisclassification.topkRow 1 y t j = 1 := by
      unfold TopKMisclassification.topkRow
      rw [boolInd_neg (not_lt.mpr hS0)]
      ring
    rw [hind, htop1, htopk]
    exact ⟨rfl, rfl⟩

/-- Witness for claim C5 at y = [[1],[0]] (no ties), t = [[1],[0]]. -/
theorem topK_top1_matches_witness :
    (∀ j, ∃ c, oneHotCol tW j c) ∧
      (∀ j, Function.Injective (fun i => yW i j)) ∧
      (TopKMisclassification.top1Row yW tW 0 =
          Misclassification.indicator yW tW 0 ∧
        TopKMisclassification.topkRow 1 yW tW 0 =
          Misclassification.indicator yW tW 0) :=
  ⟨by decide, by decide,
    topK_top1_matches_misclassification yW tW (by decide) (by decide) 0⟩

end NeonCost
